import Mathlib

/-!
Verification development for the Image Overlay Service (src/main.py).

The development shallowly embeds the text wrapper (`wrap_text`, main.py 201-225),
the box layout and draw-coordinate computation and the compositing steps of
`add_translucent_box_with_text` (main.py 228-330), and the validation and
processing flow of the `create_overlay` handler (main.py 333-396).

Font handles are opaque collaborators: a loaded PIL font only enters the core
through `draw.textbbox((0, 0), text, font)` (a pure, deterministic measurement,
modelled by `FontMetric.bbox`) and through glyph rasterisation when text is
painted (modelled by `FontMetric.mask`).  Machine integers are `Int`/`Nat`
(Python integers are unbounded); the single floating-point operation,
`int(img_width * 0.8)`, is modelled exactly as IEEE-754 double arithmetic
(see `pyIntTimes08`).
-/

/-- Python `str.split()` (no separator): maximal runs of non-whitespace
characters, with empty pieces dropped.  Accumulator-based worker over the
character list; `acc` holds the current run, reversed. -/
def splitWsAux : List Char → List Char → List (List Char)
  | acc, [] => if acc = [] then [] else [acc.reverse]
  | acc, c :: cs =>
    if c.isWhitespace then
      (if acc = [] then [] else [acc.reverse]) ++ splitWsAux [] cs
    else
      splitWsAux (c :: acc) cs

/-- The word list of a character list, as computed by Python `str.split()`. -/
def splitWs (cs : List Char) : List (List Char) := splitWsAux [] cs

/-- `text.split()` from main.py line 206, on `String`. -/
def pySplit (s : String) : List String := (splitWs s.data).map String.mk

/-- Character-list version of Python `' '.join`. -/
def charJoin : List (List Char) → List Char
  | [] => []
  | [w] => w
  | w :: x :: ws => w ++ ' ' :: charJoin (x :: ws)

/-- Python `' '.join` on a list of strings (main.py lines 211, 219, 223). -/
def joinSpace : List String → String
  | [] => ""
  | [s] => s
  | s :: x :: ws => s ++ " " ++ joinSpace (x :: ws)

/-- Result of `draw.textbbox((0, 0), text, font)`: a 4-tuple of pixel
coordinates (left, top, right, bottom). -/
structure TextBBox where
  x0 : Int
  y0 : Int
  x1 : Int
  y1 : Int

/-- Measured pixel width of a bounding box: `bbox[2] - bbox[0]`. -/
def bboxW (b : TextBBox) : Int := b.x1 - b.x0

/-- Measured pixel height of a bounding box: `bbox[3] - bbox[1]`. -/
def bboxH (b : TextBBox) : Int := b.y1 - b.y0

/-- A loaded font at a fixed size, as seen by the core: a deterministic
text-measurement function (`draw.textbbox`) and a glyph-coverage mask used
when text is painted.  Both are supplied by the font collaborator and are
arbitrary here. -/
structure FontMetric where
  bbox : String → TextBBox
  mask : String → Int → Int → Bool

/-- Measured width of a string under a font: `bbox[2] - bbox[0]`. -/
def textWidth (font : FontMetric) (s : String) : Int := bboxW (font.bbox s)

/-- Measured height of a string under a font: `bbox[3] - bbox[1]`. -/
def textHeight (font : FontMetric) (s : String) : Int := bboxH (font.bbox s)

/-- Loop of `wrap_text` (main.py 210-223): greedy line fill.  `currentLine` is
the Python `current_line` list of words; the produced list contains the
space-joined committed lines in order. -/
def wrapAux (font : FontMetric) (maxWidth : Int) : List String → List String → List String
  | currentLine, [] => if currentLine = [] then [] else [joinSpace currentLine]
  | currentLine, word :: words =>
    let testLine := joinSpace (currentLine ++ [word])
    let width := bboxW (font.bbox testLine)
    if width ≤ maxWidth then
      wrapAux font maxWidth (currentLine ++ [word]) words
    else if currentLine = [] then
      wrapAux font maxWidth [word] words
    else
      joinSpace currentLine :: wrapAux font maxWidth [word] words

/-- `wrap_text(text, font, max_width, draw)` from main.py 201-225.  The `draw`
argument only supplies `textbbox`, which is folded into `font`. -/
def wrap_text (text : String) (font : FontMetric) (maxWidth : Int) : List String :=
  wrapAux font maxWidth [] (pySplit text)

/-- The same wrapping loop, keeping each line as its list of words (the
Python `current_line` value at the moment the line is committed) instead of
joining it.  `wrapAux` is its image under `joinSpace`. -/
def wrapWordLines (font : FontMetric) (maxWidth : Int) : List String → List String → List (List String)
  | currentLine, [] => if currentLine = [] then [] else [currentLine]
  | currentLine, word :: words =>
    let testLine := joinSpace (currentLine ++ [word])
    let width := bboxW (font.bbox testLine)
    if width ≤ maxWidth then
      wrapWordLines font maxWidth (currentLine ++ [word]) words
    else if currentLine = [] then
      wrapWordLines font maxWidth [word] words
    else
      currentLine :: wrapWordLines font maxWidth [word] words

/-- The significand of the IEEE-754 double nearest to 0.8: the double is
`7205759403792794 / 2 ^ 53` (0.8 rounds up, since `2 ^ 55 / 5` has fractional
part 3/5). -/
def double08num : Nat := 7205759403792794

/-- Fuel-driven base-2 logarithm, structurally recursive so that concrete
instances reduce inside the kernel; agrees with `Nat.log2` whenever
`n ≤ fuel` (`log2Fuel_eq_log2`). -/
def log2Fuel : Nat → Nat → Nat
  | 0, _ => 0
  | fuel + 1, n => if n ≥ 2 then log2Fuel fuel (n / 2) + 1 else 0

/-- Base-2 logarithm (equal to `Nat.log2`, see `log2Nat_eq`). -/
def log2Nat (n : Nat) : Nat := log2Fuel n n

/-- `int(img_width * 0.8)` from main.py line 251, computed with exact
IEEE-754 binary64 semantics.  `w` is converted to double exactly
(`w ≤ 2 ^ 31 < 2 ^ 53`); the exact product `w * (double08num / 2 ^ 53)` is then
rounded to 53 significant bits: with `n = w * double08num` and `s` such that
`n / 2 ^ s` lies in `[2 ^ 52, 2 ^ 53)`, the rounded significand `m` is the
integer nearest `n / 2 ^ s`, i.e. `⌊n / 2 ^ s + 1 / 2⌋ = (2n + 2 ^ s) / 2 ^ (s + 1)`
in natural division, and the double's value is `m * 2 ^ s / 2 ^ 53`.  This
rounds halves up while IEEE-754 rounds halves to even; on this input family
the two agree: a tie forces `n / 2 ^ s = 3 * 3602879701896397 / 2`, whose
round-to-even choice is the upper neighbour `5404319552844596` (the lower one
is odd) — exactly what Python computes, e.g. `3 * 0.8 == 2.4000000000000004`.
Python's `int()` truncates the (nonnegative) double toward zero, which is the
final natural division by `2 ^ 53`. -/
def pyIntTimes08 (w : Nat) : Int :=
  let n : Nat := w * double08num
  let s : Nat := log2Nat n + 1 - 53
  let m : Nat := (2 * n + 2 ^ s) / 2 ^ (s + 1)
  ((m * 2 ^ s / 2 ^ 53 : Nat) : Int)

/-- `box_padding = 40` (main.py line 252). -/
def box_padding : Int := 40

/-- `line_spacing = 10` (main.py line 270). -/
def line_spacing : Int := 10

/-- The quote-height accumulation loop of main.py 271-274. -/
def quoteHeightFold (font : FontMetric) (lines : List String) : Int :=
  lines.foldl (fun h line => h + (bboxH (font.bbox line) + line_spacing)) 0

/-- The attribution string drawn and measured by the code: an em-dash, a
space, then the attribution (main.py lines 277 and 322). -/
def attributionString (attribution : String) : String := "— " ++ attribution

/-- The quote-drawing loop of main.py 311-319: for each line, its draw
position `(line_x, current_y)`; the cursor advances by line height plus
spacing.  Returns the draw instructions and the final cursor value. -/
def drawLinesLoop (font : FontMetric) (bx bw : Int) : Int → List String → List (Int × Int × String) × Int
  | y, [] => ([], y)
  | y, line :: rest =>
    let b := font.bbox line
    let lineX := bx + Int.fdiv (bw - bboxW b) 2
    let next := drawLinesLoop font bx bw (y + (bboxH b + line_spacing)) rest
    ((lineX, y, line) :: next.1, next.2)

/-- The geometry computed by `add_translucent_box_with_text`. -/
structure Layout where
  quote_lines : List String
  box_width : Int
  box_height : Int
  box_x : Int
  box_y : Int
  line_draws : List (Int × Int × String)
  end_y : Int
  attr_x : Int
  attr_y : Int

/-- The layout computation of `add_translucent_box_with_text` (main.py
247-285 and the draw coordinates of 310-326), with the two font handles as
abstract inputs (the code obtains them from `get_font`, a filesystem
collaborator). -/
def computeLayout (img_width img_height : Nat) (quote attribution : String)
    (quote_font attribution_font : FontMetric) : Layout :=
  let box_width : Int := pyIntTimes08 img_width
  let max_text_width : Int := box_width - box_padding * 2
  let quote_lines := wrap_text quote quote_font max_text_width
  let quote_height := quoteHeightFold quote_font quote_lines
  let attribution_height := bboxH (attribution_font.bbox (attributionString attribution))
  let box_height := quote_height + attribution_height + box_padding * 2 + 20
  let box_x := Int.fdiv ((img_width : Int) - box_width) 2
  let box_y := Int.fdiv ((img_height : Int) - box_height) 2
  let draws := drawLinesLoop quote_font box_x box_width (box_y + box_padding) quote_lines
  let attr_width := bboxW (attribution_font.bbox (attributionString attribution))
  { quote_lines := quote_lines
    box_width := box_width
    box_height := box_height
    box_x := box_x
    box_y := box_y
    line_draws := draws.1
    end_y := draws.2
    attr_x := box_x + box_width - attr_width - box_padding
    attr_y := draws.2 + 20 }

/-- An 8-bit RGBA pixel value. -/
structure Pix where
  r : Nat
  g : Nat
  b : Nat
  a : Nat

/-- A PIL image: a color mode string, pixel dimensions, and pixel contents. -/
structure PImage where
  mode : String
  width : Nat
  height : Nat
  px : Nat → Nat → Pix

/-- `Image.copy()`: an independent buffer with the same contents. -/
def PImage.copy (img : PImage) : PImage := img

/-- `Image.new(mode, size, fill)`: a constant-filled buffer. -/
def PImage.new (mode : String) (w h : Nat) (fill : Pix) : PImage :=
  { mode := mode, width := w, height := h, px := fun _ _ => fill }

/-- Modelled from the spec: PIL's `convert('RGBA')` (main.py line 302 calls
it; PIL itself is outside the repository) — "Convert source to an
alpha-capable representation if it is not already".  Channels are kept; a
source without an alpha channel becomes fully opaque. -/
def convertRGBA (img : PImage) : PImage :=
  { mode := "RGBA", width := img.width, height := img.height
    px := fun u v =>
      let p := img.px u v
      if img.mode = "RGBA" then p else { p with a := 255 } }

/-- Modelled from the spec: `draw.rectangle([x0, y0, x1, y1], fill)` (main.py
295; PIL's rasteriser is outside the repository) — "Paint an
opaque-alpha-channel filled rectangle at boxGeometry's bounds", with PIL's
inclusive corner coordinates. -/
def drawRectanglePx (img : PImage) (x0 y0 x1 y1 : Int) (fill : Pix) : PImage :=
  { img with px := fun u v =>
      if x0 ≤ (u : Int) ∧ (u : Int) ≤ x1 ∧ y0 ≤ (v : Int) ∧ (v : Int) ≤ y1 then fill
      else img.px u v }

/-- Modelled from the spec: per-channel "over" blending,
"result = overlay×overlayAlpha + base×(1−overlayAlpha)". -/
def overPix (bp op : Pix) : Pix :=
  { r := (op.r * op.a + bp.r * (255 - op.a)) / 255
    g := (op.g * op.a + bp.g * (255 - op.a)) / 255
    b := (op.b * op.a + bp.b * (255 - op.a)) / 255
    a := op.a + bp.a * (255 - op.a) / 255 }

/-- Modelled from the spec: `Image.alpha_composite(base, overlay)` (main.py
305; PIL is outside the repository) — requires two RGBA images of identical
size (raising otherwise, hence `Option`) and alpha-composites them into a
fresh RGBA image of that size. -/
def alphaComposite (base overlay : PImage) : Option PImage :=
  if base.mode = "RGBA" ∧ overlay.mode = "RGBA" ∧
      base.width = overlay.width ∧ base.height = overlay.height then
    some { mode := "RGBA", width := base.width, height := base.height
           px := fun u v => overPix (base.px u v) (overlay.px u v) }
  else none

/-- Modelled from the spec: `draw.text((x, y), text, fill, font)` (main.py
318 and 328; PIL is outside the repository) — "Paint each draw instruction's
text directly onto the composited buffer using its font handle, fixed opaque
black fill, at its computed coordinate".  Glyph coverage comes from the font
collaborator's mask, anchored at the draw coordinate. -/
def drawTextPx (img : PImage) (x y : Int) (text : String) (font : FontMetric) (fill : Pix) : PImage :=
  { img with px := fun u v =>
      if font.mask text ((u : Int) - x) ((v : Int) - y) then fill
      else img.px u v }

/-- `add_translucent_box_with_text(image, quote, attribution, font_name)`
(main.py 228-330).  The two font handles built by `get_font` are abstract
inputs.  `none` models the `ValueError` `Image.alpha_composite` would raise
on mismatched inputs (which the proofs show never happens). -/
def add_translucent_box_with_text (image : PImage) (quote attribution : String)
    (quote_font attribution_font : FontMetric) : Option PImage :=
  let L := computeLayout image.width image.height quote attribution quote_font attribution_font
  let result_image := image.copy
  let overlay := PImage.new "RGBA" image.width image.height ⟨0, 0, 0, 0⟩
  let overlay := drawRectanglePx overlay L.box_x L.box_y (L.box_x + L.box_width)
    (L.box_y + L.box_height) ⟨128, 128, 128, 153⟩
  let result_image := if result_image.mode ≠ "RGBA" then convertRGBA result_image else result_image
  match alphaComposite result_image overlay with
  | none => none
  | some composited =>
    let afterLines := L.line_draws.foldl
      (fun img d => drawTextPx img d.1 d.2.1 d.2.2 quote_font ⟨0, 0, 0, 255⟩) composited
    some (drawTextPx afterLines L.attr_x L.attr_y (attributionString attribution)
      attribution_font ⟨0, 0, 0, 255⟩)

/-- Modelled from the spec: `background.paste(result_img, mask=alpha)` onto a
white canvas (main.py 377-378; PIL is outside the repository) — "paste the
composited RGBA image onto it using its own alpha channel as the paste mask".
The RGB channels blend by the mask; the canvas has no alpha channel, so the
pasted result keeps the canvas's full opacity. -/
def pasteWithAlphaMask (background im : PImage) : PImage :=
  { background with px := fun u v =>
      let p := im.px u v
      let bgp := background.px u v
      { r := (p.r * p.a + bgp.r * (255 - p.a)) / 255
        g := (p.g * p.a + bgp.g * (255 - p.a)) / 255
        b := (p.b * p.a + bgp.b * (255 - p.a)) / 255
        a := bgp.a } }

/-- The RGB flatten of the `/overlay` handler (main.py 374-379): if the
composited result is RGBA, paste it over a white RGB background of the same
size using its alpha channel as mask. -/
def flattenForJpeg (result_img : PImage) : PImage :=
  if result_img.mode = "RGBA" then
    let background := PImage.new "RGB" result_img.width result_img.height ⟨255, 255, 255, 255⟩
    pasteWithAlphaMask background result_img
  else result_img

/-- The overlay pipeline applied to a decoded image: compositing
(main.py 372) followed by the RGB flatten (main.py 374-379). -/
def overlayPipeline (image : PImage) (quote attribution : String)
    (quote_font attribution_font : FontMetric) : Option PImage :=
  (add_translucent_box_with_text image quote attribution quote_font attribution_font).map
    flattenForJpeg

/-- A heap of image buffers: PIL image objects are references, so buffer
mutation must be modelled to state that the caller's buffer is untouched.
Addresses below `next` are allocated. -/
structure Heap where
  next : Nat
  mem : Nat → PImage

/-- Allocate a fresh buffer. -/
def Heap.alloc (h : Heap) (img : PImage) : Heap × Nat :=
  ({ next := h.next + 1, mem := fun a => if a = h.next then img else h.mem a }, h.next)

/-- Overwrite the buffer at an address (in-place mutation by an
`ImageDraw.Draw` handle). -/
def Heap.write (h : Heap) (addr : Nat) (img : PImage) : Heap :=
  { h with mem := fun a => if a = addr then img else h.mem a }

/-- The quote-drawing loop of main.py 311-319 acting on a heap: each
iteration mutates the buffer at address `t` in place through its
`ImageDraw.Draw` handle. -/
def drawTextsOnHeap (t : Nat) (font : FontMetric) : Heap → List (Int × Int × String) → Heap
  | h, [] => h
  | h, d :: ds =>
    drawTextsOnHeap t font
      (h.write t (drawTextPx (h.mem t) d.1 d.2.1 d.2.2 font ⟨0, 0, 0, 255⟩)) ds

/-- Buffer-level run of `add_translucent_box_with_text` (main.py 228-330):
the caller's image lives at `imageAddr`; `temp_img` (line 262), the copy
(line 288), the overlay (line 291), the conversion result (line 302) and the
composite (line 305) each occupy fresh buffers; the two `ImageDraw.Draw`
handles mutate the overlay (line 295) and the composited result (lines 318,
328) in place.  `temp_draw` only measures and never draws.  Returns the final
heap and the address of the returned image. -/
def addBoxOnHeap (h0 : Heap) (imageAddr : Nat) (quote attribution : String)
    (quote_font attribution_font : FontMetric) : Heap × Option Nat :=
  let image := h0.mem imageAddr
  let L := computeLayout image.width image.height quote attribution quote_font attribution_font
  let a1 := h0.alloc (PImage.new "RGBA" 1 1 ⟨0, 0, 0, 0⟩)
  let a2 := a1.1.alloc image.copy
  let a3 := a2.1.alloc (PImage.new "RGBA" image.width image.height ⟨0, 0, 0, 0⟩)
  let h4 := a3.1.write a3.2 (drawRectanglePx (a3.1.mem a3.2) L.box_x L.box_y
    (L.box_x + L.box_width) (L.box_y + L.box_height) ⟨128, 128, 128, 153⟩)
  let a5 := if (h4.mem a2.2).mode ≠ "RGBA" then h4.alloc (convertRGBA (h4.mem a2.2)) else (h4, a2.2)
  match alphaComposite (a5.1.mem a5.2) (a5.1.mem a3.2) with
  | none => (a5.1, none)
  | some composited =>
    let a6 := a5.1.alloc composited
    let h7 := drawTextsOnHeap a6.2 quote_font a6.1 L.line_draws
    let h8 := h7.write a6.2 (drawTextPx (h7.mem a6.2) L.attr_x L.attr_y
      (attributionString attribution) attribution_font ⟨0, 0, 0, 255⟩)
    (h8, some a6.2)

/-- A `POST /overlay` request as the handler sees it: upload content type and
filename, form fields, and the decoder collaborator's verdict on the uploaded
bytes (`none` when `Image.open` would fail). -/
structure OverlayRequest where
  content_type : String
  filename : String
  quote : String
  attribution : String
  font : Option String
  decoded : Option PImage

/-- Effectful stages of the handler's try-block, in program order: reading
the upload bytes (main.py 368), decoding them (369), compositing (372), and
encoding the JPEG (383). -/
inductive OverlayStep where
  | readBytes
  | decodeImage
  | renderOverlay
  | encodeJpeg

/-- The handler's outcome: an `HTTPException` with status and detail, or a
streamed JPEG attachment. -/
inductive OverlayResponse where
  | httpError (status : Nat) (detail : String)
  | jpegAttachment (img : PImage) (filename : String)

/-- Python `str.startswith` (used at main.py line 346), over the character
lists of the strings. -/
def pyStartsWith (s pre : String) : Bool := pre.data.isPrefixOf s.data

/-- The detail string of the unknown-font rejection (main.py 361-364). -/
def invalidFontDetail (f : String) (fonts : List String) : String :=
  "Invalid font \x27" ++ f ++ "\x27. Available fonts: " ++ String.intercalate ", " fonts ++
    ". Use /fonts endpoint to see all available fonts."

/-- A concrete font metric for instantiating theorems: every character is one
pixel wide, every string one pixel tall, and the glyph mask is empty. -/
def charWidthFont : FontMetric :=
  { bbox := fun s => ⟨0, 0, (s.length : Int), 1⟩, mask := fun _ _ _ => false }

/-- A concrete font metric whose every string measures 1000 pixels tall,
for exhibiting a box taller than its image. -/
def tallFont : FontMetric :=
  { bbox := fun _ => ⟨0, 0, 0, 1000⟩, mask := fun _ _ _ => false }

/-- The try-block of `create_overlay` (main.py 366-396): read, decode,
composite, flatten, encode.  Decode failure and compositing failure surface
as status-500 `HTTPException`s; the step trace records which effects ran. -/
def overlayBody (req : OverlayRequest) (quote_font attribution_font : FontMetric) :
    OverlayResponse × List OverlayStep :=
  match req.decoded with
  | none => (.httpError 500 "Error processing image: cannot identify image file",
      [.readBytes, .decodeImage])
  | some img =>
    match add_translucent_box_with_text img req.quote req.attribution quote_font attribution_font with
    | none => (.httpError 500 "Error processing image: images do not match",
        [.readBytes, .decodeImage, .renderOverlay])
    | some result_img =>
      (.jpegAttachment (flattenForJpeg result_img) ("overlay_" ++ req.filename),
        [.readBytes, .decodeImage, .renderOverlay, .encodeJpeg])

/-- `create_overlay` (main.py 333-396): content-type validation, font
resolution and validation, then the processing body.  `fonts` is the
discovered font-name list (dict keys in discovery order); the font handles
the body will use are abstract inputs. -/
def create_overlay (fonts : List String) (req : OverlayRequest)
    (quote_font attribution_font : FontMetric) : OverlayResponse × List OverlayStep :=
  if ¬ pyStartsWith req.content_type "image/" then
    (.httpError 400 "File must be an image", [])
  else
    match req.font with
    | none => overlayBody req quote_font attribution_font
    | some f =>
      if f ∈ fonts then overlayBody req quote_font attribution_font
      else (.httpError 400 (invalidFontDetail f fonts), [])

/-- A tiny concrete image for instantiating theorems. -/
def smallImage : PImage :=
  { mode := "RGB", width := 2, height := 2, px := fun _ _ => ⟨1, 2, 3, 255⟩ }

/-- A one-buffer heap holding `smallImage` at address 0. -/
def smallHeap : Heap := { next := 1, mem := fun _ => smallImage }

/-- A concrete rejected request: a plain-text upload. -/
def plainTextReq : OverlayRequest :=
  { content_type := "text/plain", filename := "f.png", quote := "q", attribution := "a",
    font := none, decoded := none }

/-! ### Properties of `pySplit` and `joinSpace` -/

theorem splitWsAux_good (cs : List Char) : ∀ acc, (∀ c ∈ acc, c.isWhitespace = false) →
    ∀ w ∈ splitWsAux acc cs, w ≠ [] ∧ ∀ c ∈ w, c.isWhitespace = false := by
  induction cs with
  | nil =>
    intro acc hacc w hw
    by_cases h : acc = []
    · simp [splitWsAux, h] at hw
    · simp only [splitWsAux, if_neg h, List.mem_singleton] at hw
      subst hw
      refine ⟨by simpa using h, ?_⟩
      intro c hc
      exact hacc c (List.mem_reverse.mp hc)
  | cons c cs ih =>
    intro acc hacc w hw
    by_cases hws : c.isWhitespace
    · simp only [splitWsAux, if_pos hws, List.mem_append] at hw
      rcases hw with hw | hw
      · by_cases h : acc = []
        · simp [h] at hw
        · simp only [if_neg h, List.mem_singleton] at hw
          subst hw
          refine ⟨by simpa using h, ?_⟩
          intro d hd
          exact hacc d (List.mem_reverse.mp hd)
      · exact ih [] (by simp) w hw
    · simp only [splitWsAux, if_neg hws] at hw
      refine ih (c :: acc) ?_ w hw
      intro d hd
      rcases List.mem_cons.mp hd with rfl | hd
      · exact Bool.not_eq_true _ ▸ by simpa using hws
      · exact hacc d hd

theorem splitWsAux_append_word (w : List Char) : ∀ acc cs, (∀ c ∈ w, c.isWhitespace = false) →
    splitWsAux acc (w ++ cs) = splitWsAux (w.reverse ++ acc) cs := by
  induction w with
  | nil => intro acc cs _; simp
  | cons c w ih =>
    intro acc cs hw
    have hc : c.isWhitespace = false := hw c (List.mem_cons_self c w)
    simp only [List.cons_append, splitWsAux, hc, Bool.false_eq_true, if_neg, List.reverse_cons,
      List.append_assoc, List.singleton_append]
    exact ih (c :: acc) cs fun d hd => hw d (List.mem_cons_of_mem c hd)

theorem splitWs_charJoin (ws : List (List Char))
    (h : ∀ w ∈ ws, w ≠ [] ∧ ∀ c ∈ w, c.isWhitespace = false) :
    splitWs (charJoin ws) = ws := by
  induction ws with
  | nil => rfl
  | cons w rest ih =>
    obtain ⟨hne, hgood⟩ := h w (List.mem_cons_self w rest)
    cases rest with
    | nil =>
      show splitWsAux [] (charJoin [w]) = [w]
      have : charJoin [w] = w ++ [] := by simp [charJoin]
      rw [this, splitWsAux_append_word w [] [] hgood]
      have hrev : ¬ w.reverse = [] := by simpa using hne
      simp [splitWsAux, hrev, hne]
    | cons x rest2 =>
      show splitWsAux [] (charJoin (w :: x :: rest2)) = w :: x :: rest2
      have hj : charJoin (w :: x :: rest2) = w ++ ' ' :: charJoin (x :: rest2) := rfl
      rw [hj, splitWsAux_append_word w [] (' ' :: charJoin (x :: rest2)) hgood]
      have hrev : ¬ w.reverse = [] := by simpa using hne
      have hih := ih fun l hl => h l (List.mem_cons_of_mem w hl)
      simp [splitWsAux, hrev]
      exact hih

theorem joinSpace_data (ws : List String) :
    (joinSpace ws).data = charJoin (ws.map String.data) := by
  induction ws with
  | nil => rfl
  | cons s rest ih =>
    cases rest with
    | nil => rfl
    | cons x rest2 =>
      show (s ++ " " ++ joinSpace (x :: rest2)).data =
        s.data ++ ' ' :: charJoin ((x :: rest2).map String.data)
      rw [String.data_append, String.data_append, ih]
      have hsp : (" ").data = [' '] := rfl
      simp [hsp, List.append_assoc]

theorem pySplit_joinSpace (ws : List String)
    (h : ∀ w ∈ ws, w.data ≠ [] ∧ ∀ c ∈ w.data, c.isWhitespace = false) :
    pySplit (joinSpace ws) = ws := by
  show (splitWs (joinSpace ws).data).map String.mk = ws
  rw [joinSpace_data, splitWs_charJoin (ws.map String.data) ?_]
  · rw [List.map_map]
    have : ∀ s : String, String.mk s.data = s := fun s => rfl
    simp [Function.comp_def, this]
  · intro w hw
    obtain ⟨s, hs, rfl⟩ := List.mem_map.mp hw
    exact h s hs

theorem pySplit_good (s : String) :
    ∀ w ∈ pySplit s, w.data ≠ [] ∧ ∀ c ∈ w.data, c.isWhitespace = false := by
  intro w hw
  obtain ⟨l, hl, rfl⟩ := List.mem_map.mp hw
  exact splitWsAux_good s.data [] (by simp) l hl

/-! ### Properties of the wrapping loop -/

theorem wrapAux_eq_map (font : FontMetric) (maxWidth : Int) (ws : List String) :
    ∀ cur, wrapAux font maxWidth cur ws = (wrapWordLines font maxWidth cur ws).map joinSpace := by
  induction ws with
  | nil =>
    intro cur
    by_cases h : cur = [] <;> simp [wrapAux, wrapWordLines, h]
  | cons w rest ih =>
    intro cur
    show (if bboxW (font.bbox (joinSpace (cur ++ [w]))) ≤ maxWidth then
        wrapAux font maxWidth (cur ++ [w]) rest
      else if cur = [] then wrapAux font maxWidth [w] rest
      else joinSpace cur :: wrapAux font maxWidth [w] rest) =
      (if bboxW (font.bbox (joinSpace (cur ++ [w]))) ≤ maxWidth then
        wrapWordLines font maxWidth (cur ++ [w]) rest
      else if cur = [] then wrapWordLines font maxWidth [w] rest
      else cur :: wrapWordLines font maxWidth [w] rest).map joinSpace
    split_ifs with h1 h2
    · exact ih (cur ++ [w])
    · exact ih [w]
    · simp [ih [w]]

theorem wrapWordLines_flatten (font : FontMetric) (maxWidth : Int) (ws : List String) :
    ∀ cur, (wrapWordLines font maxWidth cur ws).flatten = cur ++ ws := by
  induction ws with
  | nil =>
    intro cur
    by_cases h : cur = [] <;> simp [wrapWordLines, h]
  | cons w rest ih =>
    intro cur
    show (if bboxW (font.bbox (joinSpace (cur ++ [w]))) ≤ maxWidth then
        wrapWordLines font maxWidth (cur ++ [w]) rest
      else if cur = [] then wrapWordLines font maxWidth [w] rest
      else cur :: wrapWordLines font maxWidth [w] rest).flatten = cur ++ w :: rest
    split_ifs with h1 h2
    · rw [ih (cur ++ [w])]; simp
    · rw [ih [w]]; simp [h2]
    · rw [List.flatten_cons, ih [w]]; simp

theorem wrapWordLines_ne_nil (font : FontMetric) (maxWidth : Int) (ws : List String) :
    ∀ cur, ∀ l ∈ wrapWordLines font maxWidth cur ws, l ≠ [] := by
  induction ws with
  | nil =>
    intro cur l hl
    by_cases h : cur = []
    · simp [wrapWordLines, h] at hl
    · simp only [wrapWordLines, if_neg h, List.mem_singleton] at hl
      subst hl; exact h
  | cons w rest ih =>
    intro cur l hl
    show l ≠ []
    rw [show wrapWordLines font maxWidth cur (w :: rest) =
      (if bboxW (font.bbox (joinSpace (cur ++ [w]))) ≤ maxWidth then
        wrapWordLines font maxWidth (cur ++ [w]) rest
      else if cur = [] then wrapWordLines font maxWidth [w] rest
      else cur :: wrapWordLines font maxWidth [w] rest) from rfl] at hl
    split_ifs at hl with h1 h2
    · exact ih (cur ++ [w]) l hl
    · exact ih [w] l hl
    · rcases List.mem_cons.mp hl with rfl | hl
      · exact h2
      · exact ih [w] l hl

theorem wrapWordLines_width (font : FontMetric) (maxWidth : Int) (ws : List String) :
    ∀ cur, (cur = [] ∨ bboxW (font.bbox (joinSpace cur)) ≤ maxWidth ∨ ∃ w, cur = [w]) →
    ∀ l ∈ wrapWordLines font maxWidth cur ws,
      bboxW (font.bbox (joinSpace l)) ≤ maxWidth ∨ ∃ w, l = [w] ∧ (w ∈ ws ∨ cur = [w]) := by
  induction ws with
  | nil =>
    intro cur hcur l hl
    by_cases h : cur = []
    · simp [wrapWordLines, h] at hl
    · simp only [wrapWordLines, if_neg h, List.mem_singleton] at hl
      subst hl
      rcases hcur with rfl | hle | ⟨w, rfl⟩
      · exact absurd rfl h
      · exact Or.inl hle
      · exact Or.inr ⟨w, rfl, Or.inr rfl⟩
  | cons w0 rest ih =>
    intro cur hcur l hl
    rw [show wrapWordLines font maxWidth cur (w0 :: rest) =
      (if bboxW (font.bbox (joinSpace (cur ++ [w0]))) ≤ maxWidth then
        wrapWordLines font maxWidth (cur ++ [w0]) rest
      else if cur = [] then wrapWordLines font maxWidth [w0] rest
      else cur :: wrapWordLines font maxWidth [w0] rest) from rfl] at hl
    split_ifs at hl with h1 h2
    · rcases ih (cur ++ [w0]) (Or.inr (Or.inl h1)) l hl with h | ⟨w, rfl, hw⟩
      · exact Or.inl h
      · refine Or.inr ⟨w, rfl, ?_⟩
        rcases hw with hw | hw
        · exact Or.inl (List.mem_cons_of_mem w0 hw)
        · have : w0 = w := by
            have := congrArg (fun l => l.getLast?) hw
            simpa using this
          exact Or.inl (this ▸ List.mem_cons_self w0 rest)
    · rcases ih [w0] (Or.inr (Or.inr ⟨w0, rfl⟩)) l hl with h | ⟨w, rfl, hw⟩
      · exact Or.inl h
      · refine Or.inr ⟨w, rfl, Or.inl ?_⟩
        rcases hw with hw | hw
        · exact List.mem_cons_of_mem w0 hw
        · have : w0 = w := by simpa using hw
          exact this ▸ List.mem_cons_self w0 rest
    · rcases List.mem_cons.mp hl with rfl | hl
      · rcases hcur with rfl | hle | ⟨w, rfl⟩
        · exact absurd rfl h2
        · exact Or.inl hle
        · exact Or.inr ⟨w, rfl, Or.inr rfl⟩
      · rcases ih [w0] (Or.inr (Or.inr ⟨w0, rfl⟩)) l hl with h | ⟨w, rfl, hw⟩
        · exact Or.inl h
        · refine Or.inr ⟨w, rfl, Or.inl ?_⟩
          rcases hw with hw | hw
          · exact List.mem_cons_of_mem w0 hw
          · have : w0 = w := by simpa using hw
            exact this ▸ List.mem_cons_self w0 rest

theorem flatMap_map_eq_flatten {α β : Type} (f : List α → β) (g : β → List α)
    (L : List (List α)) (h : ∀ l ∈ L, g (f l) = l) : (L.map f).flatMap g = L.flatten := by
  induction L with
  | nil => rfl
  | cons l L ih =>
    have hl := h l (List.mem_cons_self l L)
    simp only [List.map_cons, List.flatMap_cons, List.flatten_cons, hl]
    rw [ih fun x hx => h x (List.mem_cons_of_mem l hx)]

/-- C1: every line produced by `wrap_text`, measured with the same font
metric, fits within `maxWidth`, except a line consisting of a single input
word that alone measures wider than `maxWidth`; such an oversized word is
kept intact as its own line (it appears verbatim among the words of the
input) and wrapping is a total function, so it never fails on one. -/
theorem wrap_text_line_width (font : FontMetric) (maxWidth : Int) (text : String) :
    ∀ line ∈ wrap_text text font maxWidth,
      textWidth font line ≤ maxWidth ∨
        (line ∈ pySplit text ∧ maxWidth < textWidth font line) := by
  intro line hline
  rw [wrap_text, wrapAux_eq_map] at hline
  obtain ⟨l, hl, rfl⟩ := List.mem_map.mp hline
  have h := wrapWordLines_width font maxWidth (pySplit text) [] (Or.inl rfl) l hl
  rcases h with h | ⟨w, rfl, hw⟩
  · exact Or.inl h
  · have hjw : joinSpace [w] = w := rfl
    rcases hw with hw | hw
    · by_cases hle : textWidth font (joinSpace [w]) ≤ maxWidth
      · exact Or.inl hle
      · exact Or.inr ⟨hjw ▸ hw, lt_of_not_le hle⟩
    · simp at hw

theorem wrap_text_line_width_witness :
    textWidth charWidthFont "hello" ≤ 5 ∨
      ("hello" ∈ pySplit "hello world" ∧ 5 < textWidth charWidthFont "hello") :=
  wrap_text_line_width charWidthFont 5 "hello world" "hello" (by decide)

/-- C2: splitting each wrapped line back into words and concatenating, in
order, reproduces exactly the whitespace-split word sequence of the input —
no word is dropped, duplicated, split or reordered — and an input with no
words (empty or all-whitespace text) wraps to no lines at all. -/
theorem wrap_text_preserves_words (font : FontMetric) (maxWidth : Int) (text : String) :
    (wrap_text text font maxWidth).flatMap pySplit = pySplit text ∧
      (pySplit text = [] → wrap_text text font maxWidth = []) := by
  constructor
  · rw [wrap_text, wrapAux_eq_map]
    have hmem : ∀ l ∈ wrapWordLines font maxWidth [] (pySplit text),
        pySplit (joinSpace l) = l := by
      intro l hl
      apply pySplit_joinSpace
      intro w hw
      have hmemflat : w ∈ (wrapWordLines font maxWidth [] (pySplit text)).flatten :=
        List.mem_flatten.mpr ⟨l, hl, hw⟩
      rw [wrapWordLines_flatten] at hmemflat
      exact pySplit_good text w (by simpa using hmemflat)
    rw [flatMap_map_eq_flatten joinSpace pySplit _ hmem, wrapWordLines_flatten]
    rfl
  · intro h
    rw [wrap_text, h]
    rfl

theorem wrap_text_preserves_words_witness :
    wrap_text "   " charWidthFont 5 = [] :=
  (wrap_text_preserves_words charWidthFont 5 "   ").2 (by decide)

/-! ### Properties of the layout computation -/

theorem foldl_add_map_sum (g : String → Int) (l : List String) :
    ∀ init : Int, l.foldl (fun h x => h + g x) init = init + (l.map g).sum := by
  induction l with
  | nil => intro init; simp
  | cons x l ih =>
    intro init
    simp only [List.foldl_cons, List.map_cons, List.sum_cons, ih (init + g x)]
    ring

theorem quoteHeightFold_eq_sum (font : FontMetric) (lines : List String) :
    quoteHeightFold font lines = (lines.map fun l => textHeight font l + line_spacing).sum := by
  rw [quoteHeightFold, foldl_add_map_sum]
  simp [textHeight]

theorem drawLinesLoop_end (font : FontMetric) (bx bw : Int) (lines : List String) :
    ∀ y, (drawLinesLoop font bx bw y lines).2 =
      y + (lines.map fun l => textHeight font l + line_spacing).sum := by
  induction lines with
  | nil => intro y; simp [drawLinesLoop]
  | cons l rest ih =>
    intro y
    simp only [drawLinesLoop, ih, List.map_cons, List.sum_cons, textHeight]
    ring

theorem drawLinesLoop_length (font : FontMetric) (bx bw : Int) (lines : List String) :
    ∀ y, (drawLinesLoop font bx bw y lines).1.length = lines.length := by
  induction lines with
  | nil => intro y; rfl
  | cons l rest ih => intro y; simp [drawLinesLoop, ih]

theorem drawLinesLoop_get (font : FontMetric) (bx bw : Int) (lines : List String) :
    ∀ y i (hi : i < lines.length)
      (hd : i < (drawLinesLoop font bx bw y lines).1.length),
      (drawLinesLoop font bx bw y lines).1.get ⟨i, hd⟩ =
        (bx + Int.fdiv (bw - textWidth font (lines.get ⟨i, hi⟩)) 2,
          y + ((lines.take i).map fun l => textHeight font l + line_spacing).sum,
          lines.get ⟨i, hi⟩) := by
  induction lines with
  | nil => intro y i hi; exact absurd hi (by simp)
  | cons l rest ih =>
    intro y i hi hd
    cases i with
    | zero => simp [drawLinesLoop, textWidth]
    | succ j =>
      have hj : j < rest.length := by simpa using hi
      have hjd : j < (drawLinesLoop font bx bw (y + (bboxH (font.bbox l) + line_spacing)) rest).1.length := by
        rw [drawLinesLoop_length]; exact hj
      have := ih (y + (bboxH (font.bbox l) + line_spacing)) j hj hjd
      simp only [drawLinesLoop, List.get_cons_succ, this, List.take_succ_cons, List.map_cons,
        List.sum_cons]
      simp [textHeight, add_assoc]

theorem computeLayout_quote_lines_def (img_width img_height : Nat) (quote attribution : String)
    (quote_font attribution_font : FontMetric) :
    (computeLayout img_width img_height quote attribution quote_font attribution_font).quote_lines =
      wrap_text quote quote_font (pyIntTimes08 img_width - box_padding * 2) := rfl

theorem computeLayout_box_width_def (img_width img_height : Nat) (quote attribution : String)
    (quote_font attribution_font : FontMetric) :
    (computeLayout img_width img_height quote attribution quote_font attribution_font).box_width =
      pyIntTimes08 img_width := rfl

theorem computeLayout_box_height_def (img_width img_height : Nat) (quote attribution : String)
    (quote_font attribution_font : FontMetric) :
    (computeLayout img_width img_height quote attribution quote_font attribution_font).box_height =
      quoteHeightFold quote_font
        (computeLayout img_width img_height quote attribution quote_font attribution_font).quote_lines +
        textHeight attribution_font (attributionString attribution) + box_padding * 2 + 20 := rfl

theorem computeLayout_line_draws_def (img_width img_height : Nat) (quote attribution : String)
    (quote_font attribution_font : FontMetric) :
    (computeLayout img_width img_height quote attribution quote_font attribution_font).line_draws =
      (drawLinesLoop quote_font
        (computeLayout img_width img_height quote attribution quote_font attribution_font).box_x
        (computeLayout img_width img_height quote attribution quote_font attribution_font).box_width
        ((computeLayout img_width img_height quote attribution quote_font attribution_font).box_y +
          box_padding)
        (computeLayout img_width img_height quote attribution quote_font attribution_font).quote_lines).1 :=
  rfl

theorem computeLayout_end_y_def (img_width img_height : Nat) (quote attribution : String)
    (quote_font attribution_font : FontMetric) :
    (computeLayout img_width img_height quote attribution quote_font attribution_font).end_y =
      (drawLinesLoop quote_font
        (computeLayout img_width img_height quote attribution quote_font attribution_font).box_x
        (computeLayout img_width img_height quote attribution quote_font attribution_font).box_width
        ((computeLayout img_width img_height quote attribution quote_font attribution_font).box_y +
          box_padding)
        (computeLayout img_width img_height quote attribution quote_font attribution_font).quote_lines).2 :=
  rfl

/-- C3: the computed box height equals the sum over all wrapped quote lines
of (measured line height + 10), plus the measured height of the em-dash
prefixed attribution, plus 2 × 40 padding plus an extra 20; when the quote
wraps to zero lines the box height is still attribution height + 100 (the
computation is total, so no exception is raised). -/
theorem computeLayout_box_height_eq (img_width img_height : Nat) (quote attribution : String)
    (quote_font attribution_font : FontMetric) :
    (computeLayout img_width img_height quote attribution quote_font attribution_font).box_height =
      ((computeLayout img_width img_height quote attribution quote_font attribution_font).quote_lines.map
          fun l => textHeight quote_font l + 10).sum +
        textHeight attribution_font (attributionString attribution) + 2 * 40 + 20 ∧
    ((computeLayout img_width img_height quote attribution quote_font attribution_font).quote_lines = [] →
      (computeLayout img_width img_height quote attribution quote_font attribution_font).box_height =
        textHeight attribution_font (attributionString attribution) + 100) := by
  constructor
  · rw [computeLayout_box_height_def, quoteHeightFold_eq_sum]
    have hls : line_spacing = 10 := rfl
    have hbp : box_padding = 40 := rfl
    rw [hls, hbp]
    ring
  · intro h
    rw [computeLayout_box_height_def, h]
    have : quoteHeightFold quote_font [] = 0 := rfl
    rw [this]
    have hbp : box_padding = 40 := rfl
    rw [hbp]
    ring

theorem computeLayout_box_height_eq_witness :
    (computeLayout 100 100 "" "x" charWidthFont charWidthFont).box_height =
      textHeight charWidthFont (attributionString "x") + 100 :=
  (computeLayout_box_height_eq 100 100 "" "x" charWidthFont charWidthFont).2 (by decide)

/-- C5: the box is positioned by floor division, `box_x = (imageWidth −
boxWidth) // 2` and `box_y = (imageHeight − boxHeight) // 2`, so it is
horizontally and vertically centered up to integer rounding; no bounds
clamping is applied — as the second conjunct exhibits, a box taller than its
image keeps its computed negative `box_y`. -/
theorem computeLayout_box_position (img_width img_height : Nat) (quote attribution : String)
    (quote_font attribution_font : FontMetric) :
    ((computeLayout img_width img_height quote attribution quote_font attribution_font).box_x =
        Int.fdiv ((img_width : Int) -
          (computeLayout img_width img_height quote attribution quote_font attribution_font).box_width) 2 ∧
      (computeLayout img_width img_height quote attribution quote_font attribution_font).box_y =
        Int.fdiv ((img_height : Int) -
          (computeLayout img_width img_height quote attribution quote_font attribution_font).box_height) 2) ∧
    (computeLayout 10 10 "a" "b" tallFont tallFont).box_y < 0 := by
  exact ⟨⟨rfl, rfl⟩, by decide⟩

theorem computeLayout_attr_y_def (img_width img_height : Nat) (quote attribution : String)
    (quote_font attribution_font : FontMetric) :
    (computeLayout img_width img_height quote attribution quote_font attribution_font).attr_y =
      (computeLayout img_width img_height quote attribution quote_font attribution_font).end_y + 20 :=
  rfl

/-- C6: each quote line is drawn at x = boxX + (boxWidth − lineWidth) // 2;
the vertical cursor starts at boxY + 40 and advances by (line height + 10)
per line, so line i sits at boxY + 40 plus the accumulated heights of the
lines before it; the attribution is right-aligned at
x = boxX + boxWidth − attributionWidth − 40 and 20 below the cursor position
after the last quote line. -/
theorem computeLayout_draw_positions (img_width img_height : Nat) (quote attribution : String)
    (quote_font attribution_font : FontMetric) :
    (computeLayout img_width img_height quote attribution quote_font attribution_font).line_draws.length =
      (computeLayout img_width img_height quote attribution quote_font attribution_font).quote_lines.length ∧
    (∀ i (hq : i < (computeLayout img_width img_height quote attribution quote_font attribution_font).quote_lines.length)
        (hd : i < (computeLayout img_width img_height quote attribution quote_font attribution_font).line_draws.length),
      (computeLayout img_width img_height quote attribution quote_font attribution_font).line_draws.get ⟨i, hd⟩ =
        ((computeLayout img_width img_height quote attribution quote_font attribution_font).box_x +
            Int.fdiv ((computeLayout img_width img_height quote attribution quote_font attribution_font).box_width -
              textWidth quote_font
                ((computeLayout img_width img_height quote attribution quote_font attribution_font).quote_lines.get ⟨i, hq⟩)) 2,
          (computeLayout img_width img_height quote attribution quote_font attribution_font).box_y + 40 +
            (((computeLayout img_width img_height quote attribution quote_font attribution_font).quote_lines.take i).map
              fun l => textHeight quote_font l + 10).sum,
          (computeLayout img_width img_height quote attribution quote_font attribution_font).quote_lines.get ⟨i, hq⟩)) ∧
    (computeLayout img_width img_height quote attribution quote_font attribution_font).attr_x =
      (computeLayout img_width img_height quote attribution quote_font attribution_font).box_x +
        (computeLayout img_width img_height quote attribution quote_font attribution_font).box_width -
        textWidth attribution_font (attributionString attribution) - 40 ∧
    (computeLayout img_width img_height quote attribution quote_font attribution_font).attr_y =
      ((computeLayout img_width img_height quote attribution quote_font attribution_font).box_y + 40 +
        ((computeLayout img_width img_height quote attribution quote_font attribution_font).quote_lines.map
          fun l => textHeight quote_font l + 10).sum) + 20 := by
  refine ⟨?_, ?_, rfl, ?_⟩
  · rw [computeLayout_line_draws_def, drawLinesLoop_length]
  · intro i hq hd
    have h := drawLinesLoop_get quote_font
      (computeLayout img_width img_height quote attribution quote_font attribution_font).box_x
      (computeLayout img_width img_height quote attribution quote_font attribution_font).box_width
      (computeLayout img_width img_height quote attribution quote_font attribution_font).quote_lines
      ((computeLayout img_width img_height quote attribution quote_font attribution_font).box_y + box_padding)
      i hq hd
    refine h.trans ?_
    have hls : line_spacing = 10 := rfl
    have hbp : box_padding = 40 := rfl
    rw [hls, hbp]
  · rw [computeLayout_attr_y_def, computeLayout_end_y_def, drawLinesLoop_end]
    have hls : line_spacing = 10 := rfl
    have hbp : box_padding = 40 := rfl
    rw [hls, hbp]

theorem computeLayout_draw_positions_witness :
    (computeLayout 1000 800 "hi" "x" charWidthFont charWidthFont).line_draws.get ⟨0, by decide⟩ =
      ((computeLayout 1000 800 "hi" "x" charWidthFont charWidthFont).box_x +
          Int.fdiv ((computeLayout 1000 800 "hi" "x" charWidthFont charWidthFont).box_width -
            textWidth charWidthFont
              ((computeLayout 1000 800 "hi" "x" charWidthFont charWidthFont).quote_lines.get ⟨0, by decide⟩)) 2,
        (computeLayout 1000 800 "hi" "x" charWidthFont charWidthFont).box_y + 40 +
          (((computeLayout 1000 800 "hi" "x" charWidthFont charWidthFont).quote_lines.take 0).map
            fun l => textHeight charWidthFont l + 10).sum,
        (computeLayout 1000 800 "hi" "x" charWidthFont charWidthFont).quote_lines.get ⟨0, by decide⟩) :=
  (computeLayout_draw_positions 1000 800 "hi" "x" charWidthFont charWidthFont).2.1 0
    (by decide) (by decide)

/-! ### The floating-point box width: `int(img_width * 0.8)` -/

theorem log2Fuel_eq_log2 : ∀ fuel n, n ≤ fuel → log2Fuel fuel n = Nat.log2 n := by
  intro fuel
  induction fuel with
  | zero =>
    intro n hn
    have h0 : n = 0 := Nat.le_zero.mp hn
    subst h0
    rw [Nat.log2]
    rfl
  | succ fuel ih =>
    intro n hn
    rw [Nat.log2]
    show (if n ≥ 2 then log2Fuel fuel (n / 2) + 1 else 0) = _
    by_cases h : n ≥ 2
    · rw [if_pos h, if_pos h, ih (n / 2) (by
        have := Nat.div_lt_self (by omega : 0 < n) (by omega : 1 < 2)
        omega)]
    · rw [if_neg h, if_neg h]

theorem log2Nat_eq (n : Nat) : log2Nat n = Nat.log2 n := log2Fuel_eq_log2 n n le_rfl

theorem pyIntTimes08_nat (w : Nat) (hw1 : 0 < w) (hw2 : w ≤ 2 ^ 31) :
    (2 * (w * double08num) + 2 ^ (log2Nat (w * double08num) + 1 - 53)) /
        2 ^ (log2Nat (w * double08num) + 1 - 53 + 1) *
        2 ^ (log2Nat (w * double08num) + 1 - 53) / 2 ^ 53 =
      4 * w / 5 := by
  have hM : double08num = 7205759403792794 := rfl
  set n := w * double08num with hn
  set b := log2Nat n with hbdef
  have hblog : b = Nat.log2 n := by rw [hbdef, log2Nat_eq]
  have hnpos : 0 < n := by
    rw [hn, hM]
    exact Nat.mul_pos hw1 (by norm_num)
  have hlow : 2 ^ b ≤ n := by rw [hblog]; exact Nat.log2_self_le (by omega)
  have hhigh : n < 2 ^ (b + 1) := by rw [hblog]; exact Nat.lt_log2_self
  have hb52 : 52 ≤ b := by
    by_contra hlt
    push_neg at hlt
    have h1 : n < 2 ^ 52 := by
      have hb51 : b + 1 ≤ 52 := by omega
      exact lt_of_lt_of_le hhigh (Nat.pow_le_pow_right (by norm_num) hb51)
    have h2 : 2 ^ 52 ≤ n := by
      calc (2 : Nat) ^ 52 ≤ double08num := by norm_num [hM]
      _ = 1 * double08num := (one_mul _).symm
      _ ≤ w * double08num := Nat.mul_le_mul_right _ hw1
      _ = n := hn.symm
    omega
  have hb83 : b ≤ 83 := by
    have h1 : n < 2 ^ 84 := by
      calc n = w * double08num := hn
      _ ≤ 2 ^ 31 * double08num := Nat.mul_le_mul_right _ hw2
      _ < 2 ^ 84 := by norm_num [hM]
    have h2 : 2 ^ b < 2 ^ 84 := lt_of_le_of_lt hlow h1
    have := (Nat.pow_lt_pow_iff_right (a := 2) (by norm_num)).mp h2
    omega
  set s := b + 1 - 53 with hsdef
  have hsb : b = s + 52 := by omega
  have hs31 : s ≤ 31 := by omega
  set m := (2 * n + 2 ^ s) / 2 ^ (s + 1) with hmdef
  rcases Nat.eq_zero_or_pos (w % 5) with hr | hr
  · -- w is a multiple of 5: the double product rounds down to exactly 0.8 * w
    obtain ⟨k, hk⟩ : ∃ k, w = 5 * k := ⟨w / 5, by omega⟩
    have hn5 : n = 4 * k * 2 ^ 53 + 2 * k := by
      rw [hn, hk, hM]; ring
    have hs3 : 3 ≤ s := by
      have h1 : 2 ^ 55 < n := by
        rw [hn5]
        have hk1 : 1 ≤ k := by omega
        calc (2 : Nat) ^ 55 < 4 * 1 * 2 ^ 53 + 2 * 1 := by norm_num
        _ ≤ 4 * k * 2 ^ 53 + 2 * k := by
          have := Nat.mul_le_mul_right (2 ^ 53) (by omega : 4 * 1 ≤ 4 * k)
          omega
      have h2 : 2 ^ 55 < 2 ^ (b + 1) := lt_of_lt_of_le h1 (le_of_lt hhigh)
      have := (Nat.pow_lt_pow_iff_right (a := 2) (by norm_num)).mp h2
      omega
    have h4k : 4 * k < 2 ^ s := by
      have h1 : 4 * k * 2 ^ 53 < 2 ^ s * 2 ^ 53 := by
        calc 4 * k * 2 ^ 53 ≤ n := by rw [hn5]; omega
        _ < 2 ^ (b + 1) := hhigh
        _ = 2 ^ s * 2 ^ 53 := by rw [← pow_add]; congr 1; omega
      exact Nat.lt_of_mul_lt_mul_right h1
    have hm : m = 4 * k * 2 ^ (53 - s) := by
      have hsplit : 2 * n + 2 ^ s = (4 * k + 2 ^ s) + (4 * k * 2 ^ (53 - s)) * 2 ^ (s + 1) := by
        have hpw : 2 ^ (53 - s) * 2 ^ (s + 1) = 2 ^ 54 := by
          rw [← pow_add]; congr 1; omega
        calc 2 * n + 2 ^ s = 4 * k * 2 ^ 54 + (4 * k + 2 ^ s) := by rw [hn5]; ring
        _ = (4 * k + 2 ^ s) + (4 * k * 2 ^ (53 - s)) * 2 ^ (s + 1) := by
          rw [mul_assoc (4 * k), hpw]; ring
      have hrem : 4 * k + 2 ^ s < 2 ^ (s + 1) := by
        have : (2 : Nat) ^ (s + 1) = 2 * 2 ^ s := by rw [pow_succ]; ring
        omega
      rw [hmdef, hsplit, Nat.add_mul_div_right _ _ (by positivity), Nat.div_eq_of_lt hrem,
        zero_add]
    rw [hm, mul_assoc, show (2 : Nat) ^ (53 - s) * 2 ^ s = 2 ^ 53 by rw [← pow_add]; congr 1; omega,
      Nat.mul_div_cancel _ (by positivity)]
    omega
  · -- w is not a multiple of 5: the value is within a quarter of an ulp of
    -- 0.8 * w, whose distance to the nearest integer is at least 1/5
    set F := 4 * w / 5 with hFdef
    have hmod : 5 * F + 4 * w % 5 = 4 * w := by rw [hFdef]; omega
    have hrp : 1 ≤ 4 * w % 5 ∧ 4 * w % 5 ≤ 4 := by omega
    -- the rounded significand is the integer round of n / 2 ^ s
    have hmr : (m : Int) = round ((n : Rat) / 2 ^ s) := by
      rw [round_eq]
      have hx : (n : Rat) / 2 ^ s + 1 / 2 =
          (((2 * n + 2 ^ s : Nat) : Int) : Rat) / ((2 ^ (s + 1) : Nat) : Rat) := by
        push_cast
        rw [pow_succ]
        have h2s : (0 : Rat) < 2 ^ s := by positivity
        field_simp
        ring
      rw [hx, Rat.floor_intCast_div_natCast, hmdef]
      push_cast [Int.natCast_div]
      rfl
    have heps := abs_sub_round ((n : Rat) / 2 ^ s)
    rw [← hmr] at heps
    have he : |(n : Rat) / 2 ^ s - (m : Rat)| ≤ 1 / 2 := by
      exact_mod_cast heps
    rw [abs_le] at he
    -- convert the goal to a floor computation over the rationals
    have hgoal : ((m * 2 ^ s / 2 ^ 53 : Nat) : Int) = ((F : Nat) : Int) → m * 2 ^ s / 2 ^ 53 = F :=
      fun h => Nat.cast_inj.mp h
    apply hgoal
    have hdivfloor : ((m * 2 ^ s / 2 ^ 53 : Nat) : Int) = ⌊((m : Rat) * 2 ^ s) / 2 ^ 53⌋ := by
      rw [Int.natCast_div]
      rw [← Rat.floor_intCast_div_natCast ((m * 2 ^ s : Nat) : Int) (2 ^ 53)]
      congr 1
      push_cast
      norm_num
    rw [hdivfloor, Int.floor_eq_iff]
    -- numeric bounds
    have hq5 : (n : Rat) * 5 = 4 * w * 2 ^ 53 + 2 * w := by
      have hnat : n * 5 = 4 * w * 2 ^ 53 + 2 * w := by rw [hn, hM]; ring
      exact_mod_cast congrArg (fun t : Nat => (t : Rat)) hnat
    have hA1 : (1 : Rat) ≤ 2 ^ s := one_le_pow₀ (by norm_num)
    have hA2 : (2 : Rat) ^ s ≤ 2 ^ 31 := pow_le_pow_right₀ (by norm_num) hs31
    have hwq1 : (1 : Rat) ≤ w := by exact_mod_cast hw1
    have hwq2 : (w : Rat) ≤ 2 ^ 31 := by exact_mod_cast hw2
    have hFq : 5 * (F : Rat) + ((4 * w % 5 : Nat) : Rat) = 4 * w := by exact_mod_cast hmod
    have hrq1 : (1 : Rat) ≤ ((4 * w % 5 : Nat) : Rat) := by exact_mod_cast hrp.1
    have hrq4 : ((4 * w % 5 : Nat) : Rat) ≤ 4 := by exact_mod_cast hrp.2
    have h2s0 : (0 : Rat) < 2 ^ s := by positivity
    -- express the double's value
    have hVexp : ((m : Rat) * 2 ^ s) / 2 ^ 53 =
        (n : Rat) / 2 ^ 53 + ((m : Rat) - (n : Rat) / 2 ^ s) * 2 ^ s / 2 ^ 53 := by
      field_simp
    have hnproj : (n : Rat) / 2 ^ 53 = 4 * (w : Rat) / 5 + 2 * w / (5 * 2 ^ 53) := by
      field_simp
      linarith [hq5]
    set e : Rat := (m : Rat) - (n : Rat) / 2 ^ s with hedef
    have he1 : -(1 / 2) ≤ e := by
      have := he.2
      rw [hedef]
      linarith
    have he2 : e ≤ 1 / 2 := by
      have := he.1
      rw [hedef]
      linarith
    have hprod1 : e * 2 ^ s ≤ (1 / 2) * 2 ^ 31 := by
      calc e * 2 ^ s ≤ (1 / 2) * 2 ^ s := mul_le_mul_of_nonneg_right he2 (le_of_lt h2s0)
      _ ≤ (1 / 2) * 2 ^ 31 := by linarith
    have hprod2 : -((1 / 2) * 2 ^ 31) ≤ e * 2 ^ s := by
      have hx : (0 : Rat) ≤ (e + 1 / 2) * 2 ^ s :=
        mul_nonneg (by linarith) (le_of_lt h2s0)
      nlinarith [hx, hA2]
    constructor
    · -- lower bound
      rw [hVexp, hnproj]
      push_cast
      linarith
    · -- upper bound
      rw [hVexp, hnproj]
      push_cast
      linarith

theorem pyIntTimes08_eq_floor (w : Nat) (hw1 : 0 < w) (hw2 : w ≤ 2 ^ 31) :
    pyIntTimes08 w = ((4 * w / 5 : Nat) : Int) :=
  congrArg (fun k : Nat => (k : Int)) (pyIntTimes08_nat w hw1 hw2)

/-- C4: the computed box width is exactly `floor(imageWidth * 0.8)` — the
IEEE-754 double rounding of `img_width * 0.8` truncates to exactly
`4 * imageWidth / 5` for every representable image width (PIL dimensions fit
a 32-bit C int, so widths up to `2 ^ 31` cover every decodable image);
e.g. a 1000-pixel-wide image yields box width 800. -/
theorem computeLayout_box_width_eq (img_width img_height : Nat) (quote attribution : String)
    (quote_font attribution_font : FontMetric)
    (hw1 : 0 < img_width) (hw2 : img_width ≤ 2 ^ 31) :
    (computeLayout img_width img_height quote attribution quote_font attribution_font).box_width =
      ((4 * img_width / 5 : Nat) : Int) := by
  rw [computeLayout_box_width_def]
  exact pyIntTimes08_eq_floor img_width hw1 hw2

theorem computeLayout_box_width_eq_witness :
    (computeLayout 1000 800 "q" "a" charWidthFont charWidthFont).box_width =
      ((4 * 1000 / 5 : Nat) : Int) :=
  computeLayout_box_width_eq 1000 800 "q" "a" charWidthFont charWidthFont
    (by norm_num) (by norm_num)

/-! ### Mode, size and opacity through the compositing pipeline -/

theorem alphaComposite_spec (base overlay : PImage) (hb : base.mode = "RGBA")
    (ho : overlay.mode = "RGBA") (hw : base.width = overlay.width)
    (hh : base.height = overlay.height) :
    alphaComposite base overlay =
      some { mode := "RGBA", width := base.width, height := base.height,
             px := fun u v => overPix (base.px u v) (overlay.px u v) } := by
  rw [alphaComposite, if_pos ⟨hb, ho, hw, hh⟩]

theorem foldl_drawTextPx_dims (font : FontMetric) (fill : Pix) (ds : List (Int × Int × String)) :
    ∀ img : PImage,
      (ds.foldl (fun i d => drawTextPx i d.1 d.2.1 d.2.2 font fill) img).mode = img.mode ∧
      (ds.foldl (fun i d => drawTextPx i d.1 d.2.1 d.2.2 font fill) img).width = img.width ∧
      (ds.foldl (fun i d => drawTextPx i d.1 d.2.1 d.2.2 font fill) img).height = img.height := by
  induction ds with
  | nil => intro img; exact ⟨rfl, rfl, rfl⟩
  | cons d ds ih =>
    intro img
    simp only [List.foldl_cons]
    exact ih (drawTextPx img d.1 d.2.1 d.2.2 font fill)

theorem convert_if_rgba_mode (image : PImage) :
    (if image.mode ≠ "RGBA" then convertRGBA image else image).mode = "RGBA" := by
  split_ifs with h
  · rfl
  · exact not_not.mp h

theorem convert_if_rgba_width (image : PImage) :
    (if image.mode ≠ "RGBA" then convertRGBA image else image).width = image.width := by
  split_ifs <;> rfl

theorem convert_if_rgba_height (image : PImage) :
    (if image.mode ≠ "RGBA" then convertRGBA image else image).height = image.height := by
  split_ifs <;> rfl

theorem add_box_mode_size (image : PImage) (quote attribution : String)
    (quote_font attribution_font : FontMetric) :
    ∃ out, add_translucent_box_with_text image quote attribution quote_font attribution_font =
        some out ∧
      out.mode = "RGBA" ∧ out.width = image.width ∧ out.height = image.height := by
  simp only [add_translucent_box_with_text, PImage.copy]
  rw [alphaComposite_spec
    (if image.mode ≠ "RGBA" then convertRGBA image else image)
    (drawRectanglePx (PImage.new "RGBA" image.width image.height ⟨0, 0, 0, 0⟩)
      (computeLayout image.width image.height quote attribution quote_font attribution_font).box_x
      (computeLayout image.width image.height quote attribution quote_font attribution_font).box_y
      ((computeLayout image.width image.height quote attribution quote_font attribution_font).box_x +
        (computeLayout image.width image.height quote attribution quote_font attribution_font).box_width)
      ((computeLayout image.width image.height quote attribution quote_font attribution_font).box_y +
        (computeLayout image.width image.height quote attribution quote_font attribution_font).box_height)
      ⟨128, 128, 128, 153⟩)
    (convert_if_rgba_mode image) rfl
    (convert_if_rgba_width image) (convert_if_rgba_height image)]
  refine ⟨_, rfl, ?_, ?_, ?_⟩
  · exact (foldl_drawTextPx_dims quote_font ⟨0, 0, 0, 255⟩ _ _).1
  · exact (foldl_drawTextPx_dims quote_font ⟨0, 0, 0, 255⟩ _ _).2.1.trans
      (convert_if_rgba_width image)
  · exact (foldl_drawTextPx_dims quote_font ⟨0, 0, 0, 255⟩ _ _).2.2.trans
      (convert_if_rgba_height image)

/-- C10: whatever the color mode of the input image, the image returned by
`add_translucent_box_with_text` is in RGBA mode with the same pixel
dimensions as the input (and the `Image.alpha_composite` call succeeds);
consequently the handler's mode check always takes the flatten-to-white
branch, as the last conjunct states. -/
theorem add_translucent_box_always_rgba (image : PImage) (quote attribution : String)
    (quote_font attribution_font : FontMetric) :
    ∃ out, add_translucent_box_with_text image quote attribution quote_font attribution_font =
        some out ∧
      out.mode = "RGBA" ∧ out.width = image.width ∧ out.height = image.height ∧
      flattenForJpeg out =
        pasteWithAlphaMask (PImage.new "RGB" out.width out.height ⟨255, 255, 255, 255⟩) out := by
  obtain ⟨out, heq, hmode, hw, hh⟩ :=
    add_box_mode_size image quote attribution quote_font attribution_font
  exact ⟨out, heq, hmode, hw, hh, by rw [flattenForJpeg, if_pos hmode]⟩

/-- C8: the overlay pipeline — compositing followed by the RGB flatten onto
a white background — always succeeds and produces an image with no alpha
channel (mode RGB, every pixel fully opaque) of exactly the same pixel
dimensions as the decoded input. -/
theorem overlayPipeline_opaque (image : PImage) (quote attribution : String)
    (quote_font attribution_font : FontMetric) :
    ∃ out, overlayPipeline image quote attribution quote_font attribution_font = some out ∧
      out.mode = "RGB" ∧ out.width = image.width ∧ out.height = image.height ∧
      ∀ u v, (out.px u v).a = 255 := by
  obtain ⟨mid, hmid, hmode, hw, hh⟩ :=
    add_box_mode_size image quote attribution quote_font attribution_font
  refine ⟨flattenForJpeg mid, ?_, ?_, ?_, ?_, ?_⟩
  · rw [overlayPipeline, hmid]
    rfl
  · rw [flattenForJpeg, if_pos hmode]
    rfl
  · rw [flattenForJpeg, if_pos hmode]
    exact hw
  · rw [flattenForJpeg, if_pos hmode]
    exact hh
  · intro u v
    rw [flattenForJpeg, if_pos hmode]
    rfl

/-! ### The caller's buffer survives the render -/

theorem Heap.write_mem_ne (h : Heap) (addr : Nat) (img : PImage) (a : Nat) (ha : a ≠ addr) :
    (h.write addr img).mem a = h.mem a := by
  simp [Heap.write, ha]

theorem Heap.alloc_mem_ne (h : Heap) (img : PImage) (a : Nat) (ha : a ≠ h.next) :
    ((h.alloc img).1).mem a = h.mem a := by
  simp [Heap.alloc, ha]

theorem drawTextsOnHeap_next (t : Nat) (font : FontMetric) (ds : List (Int × Int × String)) :
    ∀ h : Heap, (drawTextsOnHeap t font h ds).next = h.next := by
  induction ds with
  | nil => intro h; rfl
  | cons d ds ih =>
    intro h
    simp only [drawTextsOnHeap]
    rw [ih]
    rfl

theorem drawTextsOnHeap_mem_ne (t : Nat) (font : FontMetric) (ds : List (Int × Int × String)) :
    ∀ (h : Heap) (a : Nat), a ≠ t → (drawTextsOnHeap t font h ds).mem a = h.mem a := by
  induction ds with
  | nil => intro h a ha; rfl
  | cons d ds ih =>
    intro h a ha
    simp only [drawTextsOnHeap]
    rw [ih _ a ha, Heap.write_mem_ne _ _ _ _ ha]

/-- C7: the buffer the caller passed in is left untouched — every pixel of
the image at `imageAddr` is the same after `add_translucent_box_with_text` as
before, for any input.  All drawing happens on the independent copy (and on
the overlay and composite buffers), which live at freshly allocated
addresses; the returned buffer is never the caller's. -/
theorem addBoxOnHeap_preserves_caller (h0 : Heap) (imageAddr : Nat) (quote attribution : String)
    (quote_font attribution_font : FontMetric) (haddr : imageAddr < h0.next) :
    (addBoxOnHeap h0 imageAddr quote attribution quote_font attribution_font).1.mem imageAddr =
      h0.mem imageAddr ∧
    ∀ outAddr,
      (addBoxOnHeap h0 imageAddr quote attribution quote_font attribution_font).2 = some outAddr →
        outAddr ≠ imageAddr := by
  simp only [addBoxOnHeap]
  split_ifs with hconv
  · split
    · refine ⟨?_, ?_⟩
      · simp only [Heap.alloc, Heap.write]
        split_ifs <;> first | rfl | omega
      · intro outAddr h
        simp at h
    · refine ⟨?_, ?_⟩
      · rw [Heap.write_mem_ne _ _ _ _ (by simp [Heap.alloc, Heap.write]; omega),
          drawTextsOnHeap_mem_ne _ _ _ _ _ (by simp [Heap.alloc, Heap.write]; omega),
          Heap.alloc_mem_ne _ _ _ (by simp [Heap.alloc, Heap.write]; omega)]
        simp only [Heap.alloc, Heap.write]
        split_ifs <;> first | rfl | omega
      · intro outAddr h
        simp only [Option.some_inj] at h
        subst h
        simp [Heap.alloc, Heap.write]
        omega
  · split
    · refine ⟨?_, ?_⟩
      · simp only [Heap.alloc, Heap.write]
        split_ifs <;> first | rfl | omega
      · intro outAddr h
        simp at h
    · refine ⟨?_, ?_⟩
      · rw [Heap.write_mem_ne _ _ _ _ (by simp [Heap.alloc, Heap.write]; omega),
          drawTextsOnHeap_mem_ne _ _ _ _ _ (by simp [Heap.alloc, Heap.write]; omega),
          Heap.alloc_mem_ne _ _ _ (by simp [Heap.alloc, Heap.write]; omega)]
        simp only [Heap.alloc, Heap.write]
        split_ifs <;> first | rfl | omega
      · intro outAddr h
        simp only [Option.some_inj] at h
        subst h
        simp [Heap.alloc, Heap.write]
        omega

theorem addBoxOnHeap_preserves_caller_witness :
    (addBoxOnHeap smallHeap 0 "hi" "x" charWidthFont charWidthFont).1.mem 0 =
      smallHeap.mem 0 ∧
    ∀ outAddr,
      (addBoxOnHeap smallHeap 0 "hi" "x" charWidthFont charWidthFont).2 =
        some outAddr → outAddr ≠ 0 :=
  addBoxOnHeap_preserves_caller smallHeap 0 "hi" "x" charWidthFont charWidthFont (by decide)

/-! ### Handler validation happens before any processing -/

/-- C9: a request whose content type does not start with "image/", or whose
explicitly named font is not among the discovered fonts, is rejected with an
HTTP 400 client error — for an unknown font, with the detail message listing
the valid font names — and the step trace is empty: the upload is not read,
nothing is decoded, and no compositing begins. -/
theorem create_overlay_rejects_before_work (fonts : List String) (req : OverlayRequest)
    (quote_font attribution_font : FontMetric) :
    (¬ pyStartsWith req.content_type "image/" →
      create_overlay fonts req quote_font attribution_font =
        (.httpError 400 "File must be an image", [])) ∧
    (pyStartsWith req.content_type "image/" →
      ∀ f, req.font = some f → f ∉ fonts →
        create_overlay fonts req quote_font attribution_font =
          (.httpError 400 (invalidFontDetail f fonts), [])) ∧
    ((¬ pyStartsWith req.content_type "image/" ∨ ∃ f, req.font = some f ∧ f ∉ fonts) →
      ∃ d, create_overlay fonts req quote_font attribution_font = (.httpError 400 d, [])) := by
  refine ⟨?_, ?_, ?_⟩
  · intro h
    rw [create_overlay, if_pos h]
  · intro hct f hf hnf
    rw [create_overlay, if_neg (not_not_intro hct), hf]
    simp only [if_neg hnf]
  · intro hbad
    by_cases hct : pyStartsWith req.content_type "image/"
    · rcases hbad with h | ⟨f, hf, hnf⟩
      · exact absurd hct h
      · exact ⟨invalidFontDetail f fonts, by
          rw [create_overlay, if_neg (not_not_intro hct), hf]
          simp only [if_neg hnf]⟩
    · exact ⟨"File must be an image", by rw [create_overlay, if_pos hct]⟩

theorem create_overlay_rejects_before_work_witness :
    create_overlay ["opensans"] plainTextReq charWidthFont charWidthFont =
      (.httpError 400 "File must be an image", []) :=
  (create_overlay_rejects_before_work ["opensans"] plainTextReq charWidthFont
    charWidthFont).1 (by decide)
